import Mathlib

/-!
Shallow embedding of `thpool.cpp` (iLya2IK/thpool): a fixed-size worker thread
pool built from a binary "level" semaphore (`bsem_*`), a decrementing countdown
semaphore (`dec_bsem_*`), and a mutex-guarded singly linked FIFO job queue.

Modelling conventions:
- The C `int` fields are `Int`; lengths and counters stay well inside 32 bits
  in every statement here, so overflow does not arise.
- The pthread mutex and condition variable inside each primitive serialize
  accesses and wake sleeping threads; they carry no state observable by the
  claims, so a `bsem` is modelled by its integer field `v` alone.
- A fatal path (`err` + `exit(1)`) and a blocking wait that cannot return in a
  sequential run are both modelled as `Option.none`.
- `malloc` outcomes are explicit `Bool` parameters (`true` = allocation
  succeeded), so the error-handling branches of the C code stay visible.
-/

/-- The `bsem` struct (thpool.cpp:74-79): its observable state is the integer
field `v` (the mutex and condition variable are synchronization plumbing). -/
structure Bsem where
  v : Int
deriving Repr, DecidableEq

/-- `bsem_init` (thpool.cpp:619-629): rejects any `value` outside `{0,1}` with
`err(...)` followed by `exit(1)` (modelled as `none`); otherwise stores `value`
into `v` after creating the mutex and condition variable. -/
def bsem_init (value : Int) : Option Bsem :=
  if value < 0 ∨ value > 1 then none
  else some { v := value }

/-- `bsem_post` (thpool.cpp:639-644): under the mutex, sets `v = 1` and signals
one waiter. -/
def bsem_post (bsem_p : Bsem) : Bsem :=
  { bsem_p with v := 1 }

/-- `bsem_post_all` (thpool.cpp:647-652): under the mutex, sets `v = 1` and
broadcasts to every waiter. -/
def bsem_post_all (bsem_p : Bsem) : Bsem :=
  { bsem_p with v := 1 }

/-- `bsem_wait` (thpool.cpp:655-662): loops on `cond_wait` while `v != 1` and
returns with the semaphore state untouched (the line writing `v = 0` is
commented out in the source). In a sequential run nothing else flips `v`, so
the call returns exactly when `v = 1` held at the check. -/
def bsem_wait (bsem_p : Bsem) : Option Bsem :=
  if bsem_p.v = 1 then some bsem_p else none

/-- `dec_bsem_init` (thpool.cpp:671-681): rejects a negative `value` with
`err(...)` followed by `exit(1)` (modelled as `none`); otherwise stores `value`. -/
def dec_bsem_init (value : Int) : Option Bsem :=
  if value < 0 then none
  else some { v := value }

/-- `dec_bsem_post` (thpool.cpp:684-689): decrements `v` by one (no clamp) and
signals the condition exactly when the decremented value is `0`. The returned
`Bool` records whether the signal was fired. -/
def dec_bsem_post (bsem_p : Bsem) : Bsem × Bool :=
  ({ bsem_p with v := bsem_p.v - 1 }, bsem_p.v - 1 == 0)

/-- `dec_bsem_wait` (thpool.cpp:700-707): loops on `cond_wait` while `v` is
non-zero, then explicitly stores `0` into `v` and returns. In a sequential run
the loop exits only when `v = 0` held at the check. -/
def dec_bsem_wait (bsem_p : Bsem) : Option Bsem :=
  if bsem_p.v = 0 then some { bsem_p with v := 0 } else none

/-- Iterated `dec_bsem_post`: the state after `p` successive posts. -/
def dec_bsem_postN : Bsem → Nat → Bsem
  | b, 0 => b
  | b, p + 1 => dec_bsem_postN (dec_bsem_post b).1 p

theorem dec_bsem_postN_v (p : Nat) :
    ∀ b : Bsem, (dec_bsem_postN b p).v = b.v - p := by
  induction p with
  | zero => intro b; simp [dec_bsem_postN]
  | succ n ih =>
    intro b
    have h := ih (dec_bsem_post b).1
    simp only [dec_bsem_postN] at h ⊢
    rw [h]
    simp only [dec_bsem_post]
    push_cast
    ring

/-- Claim C3: `dec_bsem_post` decrements the counter by exactly one on every
call, fires its wakeup exactly when the decremented counter is `0`, and never
clamps: starting from count `k`, after `p` posts the counter is `k - p`, which
is negative whenever `p > k`. -/
theorem c3_dec_bsem_post_counts (k : Int) (p : Nat) :
    (dec_bsem_post ⟨k⟩).1.v = k - 1 ∧
    ((dec_bsem_post ⟨k⟩).2 = true ↔ k - 1 = 0) ∧
    (dec_bsem_postN ⟨k⟩ p).v = k - p ∧
    (k < (p : Int) → (dec_bsem_postN ⟨k⟩ p).v < 0) := by
  refine ⟨rfl, ?_, ?_, ?_⟩
  · simp [dec_bsem_post]
  · exact dec_bsem_postN_v p ⟨k⟩
  · intro hk
    rw [dec_bsem_postN_v p ⟨k⟩]
    show k - (p : Int) < 0
    omega

theorem c3_dec_bsem_post_counts_witness :
    (dec_bsem_post ⟨1⟩).1.v = 0 ∧
    ((dec_bsem_post ⟨1⟩).2 = true ↔ (1 : Int) - 1 = 0) ∧
    (dec_bsem_postN ⟨1⟩ 3).v = -2 ∧
    (dec_bsem_postN ⟨1⟩ 3).v < 0 := by
  have h := c3_dec_bsem_post_counts 1 3
  exact ⟨by simpa using h.1, h.2.1, by simpa using h.2.2.1,
    h.2.2.2 (by norm_num)⟩

/-- Claim C4: whenever `bsem_wait` returns, the value is `1` and the semaphore
state is exactly the state that satisfied the wait condition; `bsem_wait` never
writes `0` (or anything else) into the value. -/
theorem c4_bsem_wait_frame (b b' : Bsem) (h : bsem_wait b = some b') :
    b'.v = 1 ∧ b' = b := by
  unfold bsem_wait at h
  split_ifs at h with hv
  cases h
  exact ⟨hv, rfl⟩

theorem c4_bsem_wait_frame_witness :
    (Bsem.mk 1).v = 1 ∧ Bsem.mk 1 = Bsem.mk 1 :=
  c4_bsem_wait_frame ⟨1⟩ ⟨1⟩ (by decide)

/-- Claim C5: `bsem_init` aborts exactly on `value < 0 ∨ value > 1`,
`dec_bsem_init` aborts exactly on `value < 0`, and on every valid argument each
stores exactly the given value without aborting. -/
theorem c5_signal_init_validation (value : Int) :
    (value < 0 ∨ 1 < value → bsem_init value = none) ∧
    (0 ≤ value → value ≤ 1 → bsem_init value = some ⟨value⟩) ∧
    (value < 0 → dec_bsem_init value = none) ∧
    (0 ≤ value → dec_bsem_init value = some ⟨value⟩) := by
  refine ⟨?_, ?_, ?_, ?_⟩
  · intro h
    simp only [bsem_init]
    rw [if_pos h]
  · intro h1 h2
    simp only [bsem_init]
    rw [if_neg (by omega)]
  · intro h
    simp only [dec_bsem_init]
    rw [if_pos h]
  · intro h
    simp only [dec_bsem_init]
    rw [if_neg (by omega)]

theorem c5_signal_init_validation_witness :
    bsem_init 2 = none ∧ bsem_init 1 = some ⟨1⟩ ∧
    dec_bsem_init (-1) = none ∧ dec_bsem_init 5 = some ⟨5⟩ :=
  ⟨(c5_signal_init_validation 2).1 (by norm_num),
   (c5_signal_init_validation 1).2.1 (by norm_num) (by norm_num),
   (c5_signal_init_validation (-1)).2.2.1 (by norm_num),
   (c5_signal_init_validation 5).2.2.2 (by norm_num)⟩

/-- Claim C9: whenever `dec_bsem_wait` returns, the counter is exactly `0`: the
loop exits only with the counter at `0`, and the function stores `0` before
returning. -/
theorem c9_dec_bsem_wait_zero (b b' : Bsem) (h : dec_bsem_wait b = some b') :
    b'.v = 0 := by
  unfold dec_bsem_wait at h
  split_ifs at h with hv
  cases h
  rfl

theorem c9_dec_bsem_wait_zero_witness : (Bsem.mk 0).v = 0 :=
  c9_dec_bsem_wait_zero ⟨0⟩ ⟨0⟩ (by decide)

/-- Claim C10: `bsem_post` and `bsem_post_all` set the value to `1` regardless
of the prior state, so both are idempotent: a second application leaves the
state of the first. -/
theorem c10_bsem_post_idempotent (b : Bsem) :
    (bsem_post b).v = 1 ∧ (bsem_post_all b).v = 1 ∧
    bsem_post (bsem_post b) = bsem_post b ∧
    bsem_post_all (bsem_post_all b) = bsem_post_all b := by
  refine ⟨rfl, rfl, rfl, rfl⟩

/-- The `job` struct (thpool.cpp:83-88): the function pointer and argument are
opaque `Nat` identifiers, the optional `signal_` back-link to a countdown
semaphore is the identifier of that semaphore (`none` models `NULL`). The
`prev` link is represented by the position in the queue list. -/
structure Job where
  function : Nat
  arg : Nat
  signal_ : Option Nat
deriving Repr, DecidableEq

/-- The `jobqueue` struct (thpool.cpp:92-99): `jobs` lists the linked jobs from
`front` (head) to `rear` (last element), following the `prev` links; `len` is
the separate integer length field; `has_jobs` the embedded level semaphore.
The `rwmutex` serializes push/pull and is not part of the observable state. -/
structure Jobqueue where
  jobs : List Job
  len : Int
  has_jobs : Bsem
deriving Repr, DecidableEq

/-- `jobqueue_init` (thpool.cpp:502-517): returns `-1` (here `none`) when the
`malloc` of `has_jobs` fails; otherwise the queue starts empty with `len = 0`
and the semaphore at `0` (`bsem_init(has_jobs, 0)` cannot abort since `0` is a
valid value). -/
def jobqueue_init (allocOk : Bool) : Option Jobqueue :=
  if allocOk then some { jobs := [], len := 0, has_jobs := { v := 0 } }
  else none

/-- `jobqueue_push` (thpool.cpp:537-558): under the lock, switches on `len` —
at `0` the new job becomes both `front` and `rear`, otherwise it is chained
behind `rear` — then increments `len` and calls `bsem_post_all` on `has_jobs`. -/
def jobqueue_push (jobqueue_p : Jobqueue) (newjob : Job) : Jobqueue :=
  let q1 :=
    if jobqueue_p.len = 0 then { jobqueue_p with jobs := [newjob] }
    else { jobqueue_p with jobs := jobqueue_p.jobs ++ [newjob] }
  { q1 with len := q1.len + 1, has_jobs := bsem_post_all q1.has_jobs }

/-- `jobqueue_pull` (thpool.cpp:568-601): under the lock, takes `front`, then
switches on `len` — at `0` nothing changes, at `1` the queue is emptied, above
`1` `front` advances along the `prev` link and `len` decrements — and finally
repairs `has_jobs`: its value is written to `0` when `len` ended at `0`, and
re-asserted with `bsem_post_all` otherwise. -/
def jobqueue_pull (jobqueue_p : Jobqueue) : Option Job × Jobqueue :=
  let job_p := jobqueue_p.jobs.head?
  let q1 :=
    if jobqueue_p.len = 0 then jobqueue_p
    else if jobqueue_p.len = 1 then { jobqueue_p with jobs := [], len := 0 }
    else { jobqueue_p with jobs := jobqueue_p.jobs.tail,
                           len := jobqueue_p.len - 1 }
  let q2 :=
    if q1.len = 0 then { q1 with has_jobs := { q1.has_jobs with v := 0 } }
    else { q1 with has_jobs := bsem_post_all q1.has_jobs }
  (job_p, q2)

/-- A queue state is well formed when the `len` field agrees with the number of
linked nodes (the documented `jobqueue` invariant). -/
def Jobqueue.wf (q : Jobqueue) : Prop :=
  q.len = (q.jobs.length : Int)

instance (q : Jobqueue) : Decidable q.wf := by
  unfold Jobqueue.wf
  infer_instance

/-- Pushing a whole list of jobs in order (left to right). -/
def jobqueue_pushAll (q : Jobqueue) (js : List Job) : Jobqueue :=
  js.foldl jobqueue_push q

/-- The results of `n` successive `jobqueue_pull` calls. -/
def jobqueue_pullN : Jobqueue → Nat → List (Option Job)
  | _, 0 => []
  | q, n + 1 => (jobqueue_pull q).1 :: jobqueue_pullN (jobqueue_pull q).2 n

/-- The queue state right after `jobqueue_init` succeeds. -/
def jobqueue_empty : Jobqueue :=
  { jobs := [], len := 0, has_jobs := { v := 0 } }

theorem jobqueue_push_spec (q : Jobqueue) (j : Job) (hwf : q.wf) :
    (jobqueue_push q j).jobs = q.jobs ++ [j] ∧
    (jobqueue_push q j).len = q.len + 1 ∧
    (jobqueue_push q j).wf := by
  have hwf' : q.len = (q.jobs.length : Int) := hwf
  by_cases h0 : q.len = 0
  · have hnil : q.jobs = [] := by
      have hll : q.jobs.length = 0 := by omega
      simpa using hll
    refine ⟨?_, ?_, ?_⟩ <;> simp [jobqueue_push, Jobqueue.wf, h0, hnil]
  · refine ⟨?_, ?_, ?_⟩ <;> simp [jobqueue_push, Jobqueue.wf, h0]
    omega

theorem jobqueue_pull_spec (q : Jobqueue) (hwf : q.wf) :
    (jobqueue_pull q).1 = q.jobs.head? ∧
    (jobqueue_pull q).2.jobs = q.jobs.tail ∧
    (jobqueue_pull q).2.wf := by
  have hwf' : q.len = (q.jobs.length : Int) := hwf
  by_cases h0 : q.len = 0
  · have hnil : q.jobs = [] := by
      have hll : q.jobs.length = 0 := by omega
      simpa using hll
    refine ⟨?_, ?_, ?_⟩ <;> simp [jobqueue_pull, Jobqueue.wf, h0, hnil]
  · by_cases h1 : q.len = 1
    · have htail : q.jobs.tail = [] := by
        have hlt : q.jobs.tail.length = 0 := by
          have hlen := List.length_tail q.jobs
          omega
        exact List.length_eq_zero.mp hlt
      refine ⟨?_, ?_, ?_⟩ <;>
        simp [jobqueue_pull, Jobqueue.wf, h0, h1, htail]
    · have h2 : ¬(q.len - 1 = 0) := by omega
      refine ⟨?_, ?_, ?_⟩ <;>
        simp [jobqueue_pull, Jobqueue.wf, h0, h1, h2, List.length_tail]
      omega

theorem jobqueue_pushAll_spec (js : List Job) :
    ∀ q : Jobqueue, q.wf →
      (jobqueue_pushAll q js).jobs = q.jobs ++ js ∧
      (jobqueue_pushAll q js).wf := by
  induction js with
  | nil =>
    intro q hwf
    exact ⟨by simp [jobqueue_pushAll], hwf⟩
  | cons x xs ih =>
    intro q hwf
    have hp := jobqueue_push_spec q x hwf
    have hr := ih (jobqueue_push q x) hp.2.2
    refine ⟨?_, hr.2⟩
    calc (jobqueue_pushAll q (x :: xs)).jobs
        = (jobqueue_pushAll (jobqueue_push q x) xs).jobs := rfl
      _ = (jobqueue_push q x).jobs ++ xs := hr.1
      _ = (q.jobs ++ [x]) ++ xs := by rw [hp.1]
      _ = q.jobs ++ x :: xs := by simp

theorem jobqueue_pullN_spec (l : List Job) :
    ∀ q : Jobqueue, q.wf → q.jobs = l →
      jobqueue_pullN q l.length = l.map some := by
  induction l with
  | nil =>
    intro q hwf hj
    simp [jobqueue_pullN]
  | cons x xs ih =>
    intro q hwf hj
    have hs := jobqueue_pull_spec q hwf
    have h1 : (jobqueue_pull q).1 = some x := by rw [hs.1, hj]; rfl
    have h2 : (jobqueue_pull q).2.jobs = xs := by rw [hs.2.1, hj]; rfl
    simp only [List.length_cons, jobqueue_pullN, List.map_cons]
    rw [h1, ih (jobqueue_pull q).2 hs.2.2 h2]

/-- Claim C1: the job queue is strict FIFO: pushing any sequence of jobs into a
fresh queue and then pulling that many times returns exactly those jobs in push
order (the front is the next pulled), and the most recently pushed job is the
rear (last linked node). -/
theorem c1_jobqueue_fifo (js : List Job) :
    jobqueue_pullN (jobqueue_pushAll jobqueue_empty js) js.length
      = js.map some ∧
    ∀ j : Job,
      (jobqueue_push (jobqueue_pushAll jobqueue_empty js) j).jobs.getLast?
        = some j := by
  have hwf0 : jobqueue_empty.wf := by simp [Jobqueue.wf, jobqueue_empty]
  have hall := jobqueue_pushAll_spec js jobqueue_empty hwf0
  have hjobs : (jobqueue_pushAll jobqueue_empty js).jobs = js := by
    rw [hall.1]
    simp [jobqueue_empty]
  constructor
  · exact jobqueue_pullN_spec js _ hall.2 hjobs
  · intro j
    have hp := jobqueue_push_spec _ j hall.2
    rw [hp.1, hjobs]
    simp

/-- Claim C2: every `jobqueue_pull` repairs the level semaphore: after it
returns, `has_jobs.v` is `0` exactly when the length is `0` and `1` otherwise
(jobs remain), and every `jobqueue_push` sets `has_jobs.v` to `1`; hence both
operations preserve the invariant that the value is `1` whenever the length is
positive. -/
theorem c2_pull_repairs_has_jobs (q : Jobqueue) (j : Job) :
    (jobqueue_pull q).2.has_jobs.v
      = (if (jobqueue_pull q).2.len = 0 then 0 else 1) ∧
    (jobqueue_push q j).has_jobs.v = 1 := by
  constructor
  · unfold jobqueue_pull
    by_cases h0 : q.len = 0
    · simp [h0, bsem_post_all]
    · by_cases h1 : q.len = 1
      · simp [h0, h1, bsem_post_all]
      · by_cases h2 : q.len - 1 = 0
        · simp [h0, h1, h2, bsem_post_all]
        · simp [h0, h1, h2, bsem_post_all]
  · unfold jobqueue_push
    by_cases h0 : q.len = 0 <;> simp [h0, bsem_post_all]

/-- The `thpool_` struct (thpool.cpp:111-120), restricted to the state the
claims observe: the embedded job queue, the two counters, and the keep-alive
flag (the worker-handle array, mutex and condition variable carry no state
visible here). -/
structure Thpool where
  jobqueue : Jobqueue
  num_threads_alive : Int
  num_threads_working : Int
  threads_keepalive : Int
deriving Repr, DecidableEq

/-- `thpool_add_work_with_sem` (thpool.cpp:255-277): allocates a job
(`jobAlloc` models the `malloc` outcome) and returns `-1` when that fails;
returns `-2` when `signal_p` is `NULL`; otherwise fills the job with the
function, argument and signal, pushes it, and returns `0`. On both error
returns the pool (and thus the queue) is left untouched. -/
def thpool_add_work_with_sem (jobAlloc : Bool) (thpool_p : Thpool)
    (signal_p : Option Nat) (function_p arg_p : Nat) : Int × Thpool :=
  if jobAlloc = false then (-1, thpool_p)
  else
    match signal_p with
    | none => (-2, thpool_p)
    | some s =>
      (0, { thpool_p with
              jobqueue := jobqueue_push thpool_p.jobqueue
                { function := function_p, arg := arg_p, signal_ := some s } })

/-- `thpool_init` (thpool.cpp:171-230): clamps a negative `num_threads` to `0`,
returns `NULL` when the pool `malloc`, `jobqueue_init` (its `has_jobs`
`malloc`), or the threads-array `malloc` fails, then spawns the workers and
busy-waits until `num_threads_alive` equals `num_threads`. The returned pool is
the state at that startup barrier: alive = `num_threads`, nobody working,
keep-alive raised, queue exactly as `jobqueue_init` left it. -/
def thpool_init (poolAlloc queueAlloc threadsAlloc : Bool)
    (num_threads : Int) : Option Thpool :=
  let nt := if num_threads < 0 then 0 else num_threads
  if poolAlloc = false then none
  else
    match jobqueue_init queueAlloc with
    | none => none
    | some q =>
      if threadsAlloc = false then none
      else some { jobqueue := q, num_threads_alive := nt,
                  num_threads_working := 0, threads_keepalive := 1 }

/-- Claim C6: `thpool_add_work_with_sem` returns `0` and enqueues exactly one
job carrying the given signal on success, `-1` when job allocation fails, `-2`
when the signal is `NULL`, and on both error returns the queue is unchanged. -/
theorem c6_add_work_with_sem (tp : Thpool) (sp : Option Nat) (s f a : Nat)
    (hwf : tp.jobqueue.wf) :
    thpool_add_work_with_sem false tp sp f a = (-1, tp) ∧
    thpool_add_work_with_sem true tp none f a = (-2, tp) ∧
    (thpool_add_work_with_sem true tp (some s) f a).1 = 0 ∧
    (thpool_add_work_with_sem true tp (some s) f a).2.jobqueue.jobs
      = tp.jobqueue.jobs ++ [{ function := f, arg := a, signal_ := some s }] ∧
    (thpool_add_work_with_sem true tp (some s) f a).2.jobqueue.len
      = tp.jobqueue.len + 1 := by
  have hp := jobqueue_push_spec tp.jobqueue ⟨f, a, some s⟩ hwf
  refine ⟨rfl, rfl, rfl, ?_, ?_⟩
  · simpa [thpool_add_work_with_sem] using hp.1
  · simpa [thpool_add_work_with_sem] using hp.2.1

/-- A concrete pool state for evaluating the claims: empty queue, no workers. -/
def thpool_demo : Thpool :=
  { jobqueue := jobqueue_empty, num_threads_alive := 0,
    num_threads_working := 0, threads_keepalive := 1 }

theorem c6_add_work_with_sem_witness :
    thpool_add_work_with_sem false thpool_demo (some 7) 1 2
      = (-1, thpool_demo) ∧
    thpool_add_work_with_sem true thpool_demo none 1 2 = (-2, thpool_demo) ∧
    (thpool_add_work_with_sem true thpool_demo (some 7) 1 2).1 = 0 ∧
    (thpool_add_work_with_sem true thpool_demo (some 7) 1 2).2.jobqueue.jobs
      = thpool_demo.jobqueue.jobs
          ++ [{ function := 1, arg := 2, signal_ := some 7 }] ∧
    (thpool_add_work_with_sem true thpool_demo (some 7) 1 2).2.jobqueue.len
      = thpool_demo.jobqueue.len + 1 :=
  c6_add_work_with_sem thpool_demo (some 7) 7 1 2 (by decide)

/-- Claim C7: `thpool_init` treats a negative worker count as `0` (same result
for every allocation outcome), and with all allocations succeeding a pool with
`0` workers is created: a non-null handle with zero alive workers and an empty
queue. -/
theorem c7_thpool_init_clamps_negative (n : Int) (h : n < 0)
    (poolAlloc queueAlloc threadsAlloc : Bool) :
    thpool_init poolAlloc queueAlloc threadsAlloc n
      = thpool_init poolAlloc queueAlloc threadsAlloc 0 ∧
    ∃ tp : Thpool, thpool_init true true true 0 = some tp ∧
      tp.num_threads_alive = 0 ∧ tp.jobqueue.jobs = [] ∧
      tp.jobqueue.len = 0 := by
  constructor
  · simp [thpool_init, h]
  · exact ⟨_, rfl, rfl, rfl, rfl⟩

theorem c7_thpool_init_clamps_negative_witness :
    thpool_init true true true (-3) = thpool_init true true true 0 ∧
    ∃ tp : Thpool, thpool_init true true true 0 = some tp ∧
      tp.num_threads_alive = 0 ∧ tp.jobqueue.jobs = [] ∧
      tp.jobqueue.len = 0 :=
  c7_thpool_init_clamps_negative (-3) (by norm_num) true true true

/-- The per-worker core assignment loop of `thpool_init` (thpool.cpp:213-224):
the cursor `k` starts at `0`; worker `n` receives the current `k` as its
preferred core, then `k` is incremented and wrapped to `0` once it reaches
`n_of_threads` (the processor count `nprocs()` read once at construction). -/
def thread_core_loop : Nat → Nat → Nat → List Nat
  | 0, _, _ => []
  | n + 1, k, n_of_threads =>
      k :: thread_core_loop n (if k + 1 ≥ n_of_threads then 0 else k + 1)
            n_of_threads

/-- The preferred cores handed to `thread_init` for workers `0..num_threads-1`. -/
def thread_core_ids (num_threads n_of_threads : Nat) : List Nat :=
  thread_core_loop num_threads 0 n_of_threads

theorem thread_core_loop_getElem (num : Nat) :
    ∀ k np n : Nat, k < np → n < num →
      (thread_core_loop num k np)[n]? = some ((k + n) % np) := by
  induction num with
  | zero =>
    intro k np n hk hn
    exact absurd hn (Nat.not_lt_zero n)
  | succ m ih =>
    intro k np n hk hn
    cases n with
    | zero =>
      simp [thread_core_loop, Nat.mod_eq_of_lt hk]
    | succ n' =>
      have hn' : n' < m := by omega
      by_cases hkk : k + 1 ≥ np
      · have h0 := ih 0 np n' (by omega) hn'
        simp only [thread_core_loop, if_pos hkk, List.getElem?_cons_succ]
        rw [h0]
        congr 1
        rw [show k + (n' + 1) = np + n' by omega, Nat.add_mod_left]
        simp
      · have h0 := ih (k + 1) np n' (by omega) hn'
        simp only [thread_core_loop, if_neg hkk, List.getElem?_cons_succ]
        rw [show k + (n' + 1) = k + 1 + n' by omega]
        exact h0

/-- Claim C8: CPU affinity assignment is round-robin modulo the processor
count: in a pool of `num_threads` workers, worker `n` is assigned core
`n % n_of_threads`; the cursor starts at `0`, advances by one per worker, and
wraps to `0` after the last core. -/
theorem c8_round_robin_affinity (num_threads n_of_threads n : Nat)
    (hnp : 0 < n_of_threads) (hn : n < num_threads) :
    (thread_core_ids num_threads n_of_threads)[n]?
      = some (n % n_of_threads) := by
  have h := thread_core_loop_getElem num_threads 0 n_of_threads n hnp hn
  simpa using h

theorem c8_round_robin_affinity_witness :
    (thread_core_ids 5 2)[3]? = some (3 % 2) :=
  c8_round_robin_affinity 5 2 3 (by decide) (by decide)
